import Mathlib

/-!
Shallow embedding of `taskschedule/main.py` (the curses schedule renderer).

The repository ships only `main.py`; the `Schedule` and `ScheduledTask`
classes it imports are not part of the sources.  Their members that
`main.py` calls are therefore abstracted:

* `ScheduledTask.overdue` is the boolean result of `task.overdue()` for the
  current tick;
* `should_be_active` is an oracle `sba : ScheduledTask → ScheduledTask → Bool`
  carried in the configuration;
* `Schedule.as_dict()` is the hour-indexed bucket list `asDict` (the very
  value `main.py` both diffs and iterates);
* `Schedule.get_column_offsets()` is the oracle `offsets : Nat → Nat`.

Everything below that point — the clear-on-diff gate, header drawing, the
24-hour loop, the per-row color precedence, alternation, hour labels and the
per-row wall-clock reads — is translated directly from `draw` in `main.py`.
Curses side effects are reified as a trace of `DrawOp`s; in addition each
`current_line += 1` of the source appends one `RowInfo` record holding the
loop variables the source used for that row.
-/

/-- One scheduled task as `main.py` consumes it.  `overdue` is the value
`task.overdue()` returns during this tick (its body lives outside the
sources); `endHM` holds the hour/minute components of the optional `end`
datetime (only `end.strftime("%H:%M")` is ever used). -/
structure ScheduledTask where
  task_id : Nat
  description : String
  project : Option String
  start_time : String
  endHM : Option (Nat × Nat)
  completed : Bool
  active : Bool
  overdue : Bool
  glyph : String
deriving DecidableEq, Repr

/-- A reified curses side effect of one tick of `draw`. -/
inductive DrawOp where
  | clear : DrawOp
  | addstr (y x : Nat) (s : String) (colorPair : Nat) (underline : Bool) : DrawOp
  | refreshScr : DrawOp
  | sleep (seconds : Int) : DrawOp
deriving DecidableEq, Repr

/-- Bookkeeping record for one emitted row (one `current_line += 1` in the
source), holding the values of the loop variables used to draw it. -/
structure RowInfo where
  hour : Nat
  idx : Nat
  filler : Bool
  hourLabel : String
  clockReading : Nat
  hourColor : Option Nat
  color : Nat
  alternate : Bool
  line : Nat
deriving DecidableEq, Repr

/-- The mutable loop state of the drawing pass: `current_line`, `alternate`,
`past_first_task`, and a counter of `time.localtime()` calls performed so far
(used to index the wall-clock oracle). -/
structure Cursor where
  line : Nat
  alternate : Bool
  pastFirst : Bool
  clk : Nat
deriving DecidableEq, Repr

/-- Result of a drawing step: the updated cursor plus the ops and rows it
emitted. -/
structure StepOut where
  cur : Cursor
  ops : List DrawOp
  rows : List RowInfo
deriving Repr

/-- Sequencing of drawing steps (writer style): run `a`, then `f` from `a`'s
final cursor, concatenating outputs. -/
def StepOut.andThen (a : StepOut) (f : Cursor → StepOut) : StepOut :=
  let b := f a.cur
  ⟨b.cur, a.ops ++ b.ops, a.rows ++ b.rows⟩

/-- Per-tick configuration: command-line flags, screen width, the loaded
bucket list, and the oracles abstracting the members of the absent
`Schedule` / `ScheduledTask` classes.  `clock k` is the hour returned by the
k-th `time.localtime().tm_hour` call of the tick. -/
structure Cfg where
  sba : ScheduledTask → ScheduledTask → Bool
  clock : Nat → Nat
  maxX : Nat
  hideEmpty : Bool
  hideProjects : Bool
  offsets : Nat → Nat
  asDict : List (List ScheduledTask)

/-- Zero-padded two-digit rendering, as Python's strftime `%H` / `%M`. -/
def pad2 (n : Nat) : String :=
  if n < 10 then "0" ++ toString n else toString n

/-- Python's `dt.strftime("%H:%M")` on a time with hour `h`, minute `m`. -/
def strftimeHM (h m : Nat) : String :=
  pad2 h ++ ":" ++ pad2 m

/-- Lines 122-126 of `main.py`: the time cell is `start_time` alone when
`task.end is None`, else `start_time ++ "-" ++ end.strftime("%H:%M")`. -/
def formattedTime (t : ScheduledTask) : String :=
  match t.endHM with
  | none => t.start_time
  | some e => t.start_time ++ "-" ++ strftimeHM e.1 e.2

/-- A run of `n` spaces (Python `' ' * n`; for negative counts Python yields
the empty string, matching truncated subtraction on `Nat`). -/
def spaces (n : Nat) : String :=
  String.mk (List.replicate n ' ')

/-- Lines 89-95 of `main.py`: `tasks[ii + 1]` under `try/except IndexError` —
`is_current_task` is `False` when there is no next task in the bucket, else
`task.should_be_active(next_task)`. -/
def isCurrentOf (sba : ScheduledTask → ScheduledTask → Bool)
    (t : ScheduledTask) (next? : Option ScheduledTask) : Bool :=
  match next? with
  | none => false
  | some nt => sba t nt

/-- Lines 98-114 of `main.py`: the color pair chosen for a task row.
`8` = active, `10` = current, `11` = overdue, `7`/`6` = completed on the two
alternation shades, `1`/`3` = normal on the two alternation shades. -/
def rowColor (active isCurrent overdue completed alternate : Bool) : Nat :=
  if active then 8
  else if isCurrent then 10
  else if overdue && !completed then 11
  else if alternate then
    if completed then 7 else 1
  else
    if completed then 6 else 3

/-- Lines 50-58 of `main.py`: the header row.  `ID`, `Time` and `Project`
are written unconditionally at `offsets[1..3]`; `Description` at
`offsets[4]` only when the project column is not hidden.  All use color
pair 4 with underline. -/
def headerOps (offsets : Nat → Nat) (hideProjects : Bool) : List DrawOp :=
  [DrawOp.addstr 0 (offsets 1) "ID" 4 true,
   DrawOp.addstr 0 (offsets 2) "Time" 4 true,
   DrawOp.addstr 0 (offsets 3) "Project" 4 true] ++
  (if hideProjects then [] else [DrawOp.addstr 0 (offsets 4) "Description" 4 true])

/-- Lines 69-87 of `main.py`: one empty-hour filler row — the blank fill at
column 5 in the alternation shade, then the hour label at column 0, color
pair 5 when `i` equals the freshly read current hour and 2 otherwise; then
`current_line += 1` and the alternation flip.  One `time.localtime()` call
is consumed. -/
def fillerStep (cfg : Cfg) (i : Nat) (c : Cursor) : StepOut :=
  let color := if c.alternate then 1 else 3
  let ch := cfg.clock c.clk
  let hcolor := if i = ch then 5 else 2
  { cur := ⟨c.line + 1, !c.alternate, c.pastFirst, c.clk + 1⟩,
    ops := [DrawOp.addstr c.line 5 (spaces (cfg.maxX - 5)) color false,
            DrawOp.addstr c.line 0 (toString i) hcolor false],
    rows := [{ hour := i, idx := 0, filler := true, hourLabel := toString i,
               clockReading := ch, hourColor := some hcolor, color := color,
               alternate := c.alternate, line := c.line }] }

/-- Lines 89-163 of `main.py`, body of the per-task loop for index `ii` and
hour `i`: classify, build the hour label (`str(i)` only for `ii == 0`),
format the time cell, read the wall clock, then the addstr sequence of the
source in order — hour label (guarded by a non-empty label; note
`int(str(i)) = i`), blank fill, glyph, id (suppressed for `task_id == 0`),
time, then project+description or description alone.  Sets
`past_first_task`, advances the line and flips alternation. -/
def taskStep (cfg : Cfg) (i ii : Nat) (t : ScheduledTask)
    (next? : Option ScheduledTask) (c : Cursor) : StepOut :=
  let isCur := isCurrentOf cfg.sba t next?
  let color := rowColor t.active isCur t.overdue t.completed c.alternate
  let hour := if ii = 0 then toString i else ""
  let ft := formattedTime t
  let ch := cfg.clock c.clk
  let hourOps := if hour = "" then []
    else [DrawOp.addstr c.line 0 hour (if i = ch then 5 else 2) false]
  let idOps := if t.task_id = 0 then []
    else [DrawOp.addstr c.line 5 (toString t.task_id) color false]
  let projOps :=
    if cfg.hideProjects then
      [DrawOp.addstr c.line (cfg.offsets 3) t.description color false]
    else
      [DrawOp.addstr c.line (cfg.offsets 3) (t.project.getD "") color false,
       DrawOp.addstr c.line (cfg.offsets 4) t.description color false]
  { cur := ⟨c.line + 1, !c.alternate, true, c.clk + 1⟩,
    ops := hourOps ++
      [DrawOp.addstr c.line 5 (spaces (cfg.maxX - 5)) color false,
       DrawOp.addstr c.line 3 t.glyph 9 false] ++ idOps ++
      [DrawOp.addstr c.line (cfg.offsets 2) ft color false] ++ projOps,
    rows := [{ hour := i, idx := ii, filler := false, hourLabel := hour,
               clockReading := ch,
               hourColor := if hour = "" then none else some (if i = ch then 5 else 2),
               color := color, alternate := c.alternate, line := c.line }] }

/-- The bucket for hour `i`: `as_dict[i]`. -/
def bucket (cfg : Cfg) (i : Nat) : List ScheduledTask :=
  cfg.asDict.getD i []

/-- The `for ii, task in enumerate(tasks)` loop: draw the remaining tasks,
`ii` being the index of the head; `rest.head?` is `tasks[ii + 1]` under
`try/except`. -/
def drawTasksAux (cfg : Cfg) (i : Nat) : Nat → List ScheduledTask → Cursor → StepOut
  | _, [], c => ⟨c, [], []⟩
  | ii, t :: rest, c =>
    (taskStep cfg i ii t rest.head? c).andThen (drawTasksAux cfg i (ii + 1) rest)

/-- Lines 64-163 of `main.py`, body of the hour loop for hour `i`: an empty
bucket draws a filler row exactly when `past_first_task or not hide_empty`
(otherwise nothing); a non-empty bucket runs the task loop. -/
def bucketStep (cfg : Cfg) (i : Nat) (c : Cursor) : StepOut :=
  let tasks := bucket cfg i
  if tasks.isEmpty then
    if c.pastFirst || !cfg.hideEmpty then fillerStep cfg i c else ⟨c, [], []⟩
  else
    drawTasksAux cfg i 0 tasks c

/-- The `for i in range(24)` loop over a given list of hours. -/
def drawHours (cfg : Cfg) : List Nat → Cursor → StepOut
  | [], c => ⟨c, [], []⟩
  | i :: rest, c => (bucketStep cfg i c).andThen (drawHours cfg rest)

/-- The whole schedule-drawing pass of one tick: hours 0..23 starting from
`current_line = 1`, `alternate = True`, `past_first_task = False`. -/
def drawSchedule (cfg : Cfg) : StepOut :=
  drawHours cfg (List.range 24) ⟨1, true, false, 0⟩

/-- The rows emitted below the header during one tick. -/
def schedRows (cfg : Cfg) : List RowInfo :=
  (drawSchedule cfg).rows

/-- One iteration of the `while True` loop of `draw` (lines 34-166): clear
iff the freshly loaded `as_dict` differs from the previous tick's, draw the
headers, draw the schedule, refresh, sleep `refresh_rate` seconds.  Returns
the op trace and the snapshot retained as `previous_as_dict`. -/
def tick (cfg : Cfg) (refreshRate : Int) (prev : List (List ScheduledTask)) :
    List DrawOp × List (List ScheduledTask) :=
  let clearOps := if cfg.asDict = prev then [] else [DrawOp.clear]
  let so := drawSchedule cfg
  (clearOps ++ headerOps cfg.offsets cfg.hideProjects ++ so.ops ++
     [DrawOp.refreshScr, DrawOp.sleep refreshRate],
   cfg.asDict)

/-- Lines 174-176 of `main.py`: `--refresh` has `type=int, default=1` — the
parsed value is the supplied integer when the flag is present, `1`
otherwise; argparse applies no further validation. -/
def refreshOf (o : Option Int) : Int :=
  o.getD 1

/-!
Specification-side definitions (for refinement claims) and observation
predicates over op traces.
-/

/-- The five visual states of the specification; `NORMAL` and `COMPLETED`
carry the alternation shade. -/
inductive VisualState where
  | ACTIVE : VisualState
  | CURRENT : VisualState
  | OVERDUE : VisualState
  | NORMAL (alt : Bool) : VisualState
  | COMPLETED (alt : Bool) : VisualState
deriving DecidableEq, Repr

/-- Written from the specification's words (§4.2 precedence, first match
wins): active → ACTIVE; else should-be-active → CURRENT; else overdue and
not completed → OVERDUE; else NORMAL or COMPLETED crossed with the
alternation flag. -/
def specClassify (active isCurrent overdue completed alternate : Bool) : VisualState :=
  if active then VisualState.ACTIVE
  else if isCurrent then VisualState.CURRENT
  else if overdue && !completed then VisualState.OVERDUE
  else if completed then VisualState.COMPLETED alternate
  else VisualState.NORMAL alternate

/-- The color pair `main.py` uses for each visual state. -/
def stateColor : VisualState → Nat
  | VisualState.ACTIVE => 8
  | VisualState.CURRENT => 10
  | VisualState.OVERDUE => 11
  | VisualState.NORMAL true => 1
  | VisualState.NORMAL false => 3
  | VisualState.COMPLETED true => 7
  | VisualState.COMPLETED false => 6

/-- Is this op a full-screen clear? -/
def isClearOp : DrawOp → Bool
  | DrawOp.clear => true
  | _ => false

/-- Is this op a sleep? -/
def isSleepOp : DrawOp → Bool
  | DrawOp.sleep _ => true
  | _ => false

/-- Is this op an `addstr`? -/
def isAddstrOp : DrawOp → Bool
  | DrawOp.addstr _ _ _ _ _ => true
  | _ => false

/-- Is this op an `addstr` at column 0 (an hour-label write)? -/
def isHourWrite : DrawOp → Bool
  | DrawOp.addstr _ x _ _ _ => x == 0
  | _ => false

/-- The text of a header op (for inspecting the header row). -/
def opText : DrawOp → String
  | DrawOp.addstr _ _ s _ _ => s
  | _ => ""

/-- Number of filler rows attributed to hour `i` in a row trace. -/
def fillerCount (rows : List RowInfo) (i : Nat) : Nat :=
  rows.countP (fun r => r.filler && r.hour == i)

/-- The alternation sequence: `n` flags starting at `b`, flipping each
step. -/
def altSeq (b : Bool) : Nat → List Bool
  | 0 => []
  | n + 1 => b :: altSeq (!b) n

/-!
Helper lemmas: sequencing, nonemptiness of `str(i)`, and the chained-cursor
invariant relating row indices to line numbers, alternation parity and
wall-clock read indices.
-/

@[simp] theorem StepOut.andThen_cur (a : StepOut) (f : Cursor → StepOut) :
    (a.andThen f).cur = (f a.cur).cur := rfl

@[simp] theorem StepOut.andThen_ops (a : StepOut) (f : Cursor → StepOut) :
    (a.andThen f).ops = a.ops ++ (f a.cur).ops := rfl

@[simp] theorem StepOut.andThen_rows (a : StepOut) (f : Cursor → StepOut) :
    (a.andThen f).rows = a.rows ++ (f a.cur).rows := rfl

theorem StepOut.skip_andThen (c : Cursor) (f : Cursor → StepOut) :
    (StepOut.mk c [] []).andThen f = f c := rfl

theorem StepOut.andThen_assoc (a : StepOut) (f g : Cursor → StepOut) :
    (a.andThen f).andThen g = a.andThen (fun c => (f c).andThen g) := by
  simp [StepOut.andThen]

theorem toDigitsCore_length_le (b : Nat) :
    ∀ (f n : Nat) (ds : List Char), ds.length ≤ (Nat.toDigitsCore b f n ds).length := by
  intro f
  induction f with
  | zero => intro n ds; simp [Nat.toDigitsCore]
  | succ f ih =>
    intro n ds
    simp only [Nat.toDigitsCore]
    split
    · simp
    · have h2 := ih (n / b) ((n % b).digitChar :: ds)
      simp only [List.length_cons] at h2
      omega

theorem toString_nat_ne_empty (n : Nat) : toString n ≠ "" := by
  show Nat.repr n ≠ ""
  unfold Nat.repr Nat.toDigits
  intro h
  have hd : (Nat.toDigitsCore 10 (n + 1) n []).length = 0 := by
    have h2 := congrArg String.data h
    simpa [List.asString] using congrArg List.length h2
  have h1 : 1 ≤ (Nat.toDigitsCore 10 (n + 1) n []).length := by
    simp only [Nat.toDigitsCore]
    split
    · simp
    · exact Nat.le_trans (by simp) (toDigitsCore_length_le 10 _ _ _)
  omega

theorem flip_parity (b : Bool) (m j : Nat) :
    (if j % 2 = 0 then (if m % 2 = 0 then b else !b) else !(if m % 2 = 0 then b else !b)) =
      (if (m + j) % 2 = 0 then b else !b) := by
  rcases Nat.mod_two_eq_zero_or_one m with hm | hm <;>
    rcases Nat.mod_two_eq_zero_or_one j with hj | hj <;>
      simp [hm, hj, Nat.add_mod]

/-- The cursor bookkeeping of a drawing step relative to its starting
cursor: the clock counter, the line number and the alternation flag all
advance once per emitted row, and the k-th emitted row records the k-th
wall-clock read, the k-times-flipped alternation flag and the k-th line. -/
def Chained (cfg : Cfg) (c : Cursor) (r : StepOut) : Prop :=
  r.cur.clk = c.clk + r.rows.length ∧
  r.cur.line = c.line + r.rows.length ∧
  r.cur.alternate = (if r.rows.length % 2 = 0 then c.alternate else !c.alternate) ∧
  ∀ k, (h : k < r.rows.length) →
    (r.rows[k].clockReading = cfg.clock (c.clk + k) ∧
     r.rows[k].alternate = (if k % 2 = 0 then c.alternate else !c.alternate) ∧
     r.rows[k].line = c.line + k)

theorem chained_skip (cfg : Cfg) (c : Cursor) : Chained cfg c ⟨c, [], []⟩ := by
  refine ⟨by simp, by simp, by simp, ?_⟩
  intro k h
  simp at h

theorem chained_single (cfg : Cfg) (c : Cursor) (pf : Bool) (ops : List DrawOp) (r : RowInfo)
    (hc : r.clockReading = cfg.clock c.clk) (ha : r.alternate = c.alternate)
    (hl : r.line = c.line) :
    Chained cfg c ⟨⟨c.line + 1, !c.alternate, pf, c.clk + 1⟩, ops, [r]⟩ := by
  refine ⟨by simp, by simp, by simp, ?_⟩
  intro k h
  simp only [List.length_singleton] at h
  have hk : k = 0 := by omega
  subst hk
  simp [hc, ha, hl]

theorem chained_andThen (cfg : Cfg) (c : Cursor) (a : StepOut) (f : Cursor → StepOut)
    (ha : Chained cfg c a) (hf : Chained cfg a.cur (f a.cur)) :
    Chained cfg c (a.andThen f) := by
  obtain ⟨ha1, ha2, ha3, ha4⟩ := ha
  obtain ⟨hf1, hf2, hf3, hf4⟩ := hf
  refine ⟨?_, ?_, ?_, ?_⟩
  · simp only [StepOut.andThen_cur, StepOut.andThen_rows, List.length_append]
    omega
  · simp only [StepOut.andThen_cur, StepOut.andThen_rows, List.length_append]
    omega
  · simp only [StepOut.andThen_cur, StepOut.andThen_rows, List.length_append]
    rw [hf3, ha3, flip_parity]
  · intro k h
    simp only [StepOut.andThen_rows, List.length_append] at h
    simp only [StepOut.andThen_rows]
    by_cases hk : k < a.rows.length
    · rw [List.getElem_append_left hk]
      exact ha4 k hk
    · have hk2 : a.rows.length ≤ k := by omega
      rw [List.getElem_append_right hk2]
      have hj : k - a.rows.length < (f a.cur).rows.length := by omega
      obtain ⟨hc', hal, hln⟩ := hf4 (k - a.rows.length) hj
      refine ⟨?_, ?_, ?_⟩
      · rw [hc']
        have hkk : a.cur.clk + (k - a.rows.length) = c.clk + k := by omega
        rw [hkk]
      · rw [hal, ha3, flip_parity]
        have hkk : a.rows.length + (k - a.rows.length) = k := by omega
        rw [hkk]
      · rw [hln, ha2]
        omega

theorem chained_fillerStep (cfg : Cfg) (i : Nat) (c : Cursor) :
    Chained cfg c (fillerStep cfg i c) :=
  chained_single cfg c c.pastFirst _ _ rfl rfl rfl

theorem chained_taskStep (cfg : Cfg) (i ii : Nat) (t : ScheduledTask)
    (next? : Option ScheduledTask) (c : Cursor) :
    Chained cfg c (taskStep cfg i ii t next? c) :=
  chained_single cfg c true _ _ rfl rfl rfl

theorem chained_drawTasksAux (cfg : Cfg) (i : Nat) :
    ∀ (ts : List ScheduledTask) (ii : Nat) (c : Cursor),
      Chained cfg c (drawTasksAux cfg i ii ts c) := by
  intro ts
  induction ts with
  | nil => intro ii c; exact chained_skip cfg c
  | cons t rest ih =>
    intro ii c
    exact chained_andThen cfg c _ _ (chained_taskStep cfg i ii t rest.head? c) (ih (ii + 1) _)

theorem chained_bucketStep (cfg : Cfg) (i : Nat) (c : Cursor) :
    Chained cfg c (bucketStep cfg i c) := by
  cases he : (bucket cfg i).isEmpty with
  | true =>
    cases hp : (c.pastFirst || !cfg.hideEmpty) with
    | true => simpa [bucketStep, he, hp] using chained_fillerStep cfg i c
    | false => simpa [bucketStep, he, hp] using chained_skip cfg c
  | false => simpa [bucketStep, he] using chained_drawTasksAux cfg i (bucket cfg i) 0 c

theorem chained_drawHours (cfg : Cfg) :
    ∀ (hs : List Nat) (c : Cursor), Chained cfg c (drawHours cfg hs c) := by
  intro hs
  induction hs with
  | nil => intro c; exact chained_skip cfg c
  | cons i rest ih =>
    intro c
    exact chained_andThen cfg c _ _ (chained_bucketStep cfg i c) (ih _)

theorem chained_drawSchedule (cfg : Cfg) :
    Chained cfg ⟨1, true, false, 0⟩ (drawSchedule cfg) :=
  chained_drawHours cfg (List.range 24) ⟨1, true, false, 0⟩

/-- Pointwise properties of every emitted row: the hour-label color is
pair 5 exactly when a label is present and it names the freshly read
current hour (pair 2 otherwise); filler rows always carry the label
`str(hour)`; task rows carry it exactly on the first row of the bucket. -/
def RowWf (r : RowInfo) : Prop :=
  (r.hourLabel ≠ "" → r.hourColor = some (if r.hour = r.clockReading then 5 else 2)) ∧
  (r.hourLabel = "" → r.hourColor = none) ∧
  (r.filler = true → r.hourLabel = toString r.hour) ∧
  (r.filler = false → r.hourLabel = (if r.idx = 0 then toString r.hour else ""))

theorem rowWf_fillerStep (cfg : Cfg) (i : Nat) (c : Cursor) :
    ∀ r ∈ (fillerStep cfg i c).rows, RowWf r := by
  intro r hr
  simp only [fillerStep, List.mem_singleton] at hr
  subst hr
  refine ⟨fun _ => rfl, fun h => absurd h (toString_nat_ne_empty i), fun _ => rfl, ?_⟩
  intro h
  simp at h

theorem rowWf_taskStep (cfg : Cfg) (i ii : Nat) (t : ScheduledTask)
    (next? : Option ScheduledTask) (c : Cursor) :
    ∀ r ∈ (taskStep cfg i ii t next? c).rows, RowWf r := by
  intro r hr
  simp only [taskStep, List.mem_singleton] at hr
  subst hr
  unfold RowWf
  by_cases hii : ii = 0 <;> simp [hii, toString_nat_ne_empty i]

theorem rowWf_drawTasksAux (cfg : Cfg) (i : Nat) :
    ∀ (ts : List ScheduledTask) (ii : Nat) (c : Cursor),
      ∀ r ∈ (drawTasksAux cfg i ii ts c).rows, RowWf r := by
  intro ts
  induction ts with
  | nil => intro ii c r hr; simp [drawTasksAux] at hr
  | cons t rest ih =>
    intro ii c r hr
    simp only [drawTasksAux, StepOut.andThen_rows, List.mem_append] at hr
    rcases hr with hr | hr
    · exact rowWf_taskStep cfg i ii t rest.head? c r hr
    · exact ih (ii + 1) _ r hr

theorem rowWf_bucketStep (cfg : Cfg) (i : Nat) (c : Cursor) :
    ∀ r ∈ (bucketStep cfg i c).rows, RowWf r := by
  intro r hr
  cases he : (bucket cfg i).isEmpty with
  | true =>
    cases hp : (c.pastFirst || !cfg.hideEmpty) with
    | true =>
      rw [bucketStep] at hr
      simp only [he, hp] at hr
      exact rowWf_fillerStep cfg i c r (by simpa using hr)
    | false =>
      rw [bucketStep] at hr
      simp only [he, hp] at hr
      simp at hr
  | false =>
    rw [bucketStep] at hr
    simp only [he] at hr
    exact rowWf_drawTasksAux cfg i (bucket cfg i) 0 c r (by simpa using hr)

theorem rowWf_drawHours (cfg : Cfg) :
    ∀ (hs : List Nat) (c : Cursor), ∀ r ∈ (drawHours cfg hs c).rows, RowWf r := by
  intro hs
  induction hs with
  | nil => intro c r hr; simp [drawHours] at hr
  | cons i rest ih =>
    intro c r hr
    simp only [drawHours, StepOut.andThen_rows, List.mem_append] at hr
    rcases hr with hr | hr
    · exact rowWf_bucketStep cfg i c r hr
    · exact ih _ r hr

theorem rowWf_schedRows (cfg : Cfg) : ∀ r ∈ schedRows cfg, RowWf r :=
  rowWf_drawHours cfg (List.range 24) ⟨1, true, false, 0⟩

theorem pastFirst_drawTasksAux (cfg : Cfg) (i : Nat) :
    ∀ (ts : List ScheduledTask) (ii : Nat) (c : Cursor),
      (drawTasksAux cfg i ii ts c).cur.pastFirst = (c.pastFirst || !ts.isEmpty) := by
  intro ts
  induction ts with
  | nil => intro ii c; simp [drawTasksAux]
  | cons t rest ih =>
    intro ii c
    simp only [drawTasksAux, StepOut.andThen_cur, ih (ii + 1), taskStep, List.isEmpty_cons]
    simp

theorem pastFirst_bucketStep (cfg : Cfg) (i : Nat) (c : Cursor) :
    (bucketStep cfg i c).cur.pastFirst = (c.pastFirst || !(bucket cfg i).isEmpty) := by
  cases he : (bucket cfg i).isEmpty with
  | true =>
    cases hp : (c.pastFirst || !cfg.hideEmpty) with
    | true => simp [bucketStep, he, hp, fillerStep]
    | false => simp [bucketStep, he, hp]
  | false => simp [bucketStep, he, pastFirst_drawTasksAux]

theorem pastFirst_drawHours (cfg : Cfg) :
    ∀ (hs : List Nat) (c : Cursor),
      (drawHours cfg hs c).cur.pastFirst =
        (c.pastFirst || hs.any (fun j => !(bucket cfg j).isEmpty)) := by
  intro hs
  induction hs with
  | nil => intro c; simp [drawHours]
  | cons i rest ih =>
    intro c
    simp only [drawHours, StepOut.andThen_cur, ih, pastFirst_bucketStep, List.any_cons]
    rw [Bool.or_assoc]

theorem hour_rows_drawTasksAux (cfg : Cfg) (i : Nat) :
    ∀ (ts : List ScheduledTask) (ii : Nat) (c : Cursor),
      ∀ r ∈ (drawTasksAux cfg i ii ts c).rows, r.hour = i ∧ r.filler = false := by
  intro ts
  induction ts with
  | nil => intro ii c r hr; simp [drawTasksAux] at hr
  | cons t rest ih =>
    intro ii c r hr
    simp only [drawTasksAux, StepOut.andThen_rows, List.mem_append] at hr
    rcases hr with hr | hr
    · simp only [taskStep, List.mem_singleton] at hr
      subst hr
      exact ⟨rfl, rfl⟩
    · exact ih (ii + 1) _ r hr

theorem hour_rows_bucketStep (cfg : Cfg) (i : Nat) (c : Cursor) :
    ∀ r ∈ (bucketStep cfg i c).rows, r.hour = i := by
  intro r hr
  cases he : (bucket cfg i).isEmpty with
  | true =>
    cases hp : (c.pastFirst || !cfg.hideEmpty) with
    | true =>
      simp [bucketStep, he, hp, fillerStep] at hr
      subst hr
      rfl
    | false =>
      simp [bucketStep, he, hp] at hr
  | false =>
    simp only [bucketStep, he] at hr
    exact (hour_rows_drawTasksAux cfg i (bucket cfg i) 0 c r (by simpa using hr)).1

theorem hour_rows_drawHours (cfg : Cfg) :
    ∀ (hs : List Nat) (c : Cursor), ∀ r ∈ (drawHours cfg hs c).rows, r.hour ∈ hs := by
  intro hs
  induction hs with
  | nil => intro c r hr; simp [drawHours] at hr
  | cons i rest ih =>
    intro c r hr
    simp only [drawHours, StepOut.andThen_rows, List.mem_append] at hr
    rcases hr with hr | hr
    · rw [hour_rows_bucketStep cfg i c r hr]; exact List.mem_cons_self i rest
    · exact List.mem_cons_of_mem i (ih _ r hr)

theorem addstr_fillerStep (cfg : Cfg) (i : Nat) (c : Cursor) :
    ∀ op ∈ (fillerStep cfg i c).ops, isAddstrOp op = true := by
  intro op hop
  simp [fillerStep] at hop
  rcases hop with h | h <;> subst h <;> rfl

theorem addstr_taskStep (cfg : Cfg) (i ii : Nat) (t : ScheduledTask)
    (next? : Option ScheduledTask) (c : Cursor) :
    ∀ op ∈ (taskStep cfg i ii t next? c).ops, isAddstrOp op = true := by
  intro op hop
  simp [taskStep] at hop
  aesop

theorem addstr_drawTasksAux (cfg : Cfg) (i : Nat) :
    ∀ (ts : List ScheduledTask) (ii : Nat) (c : Cursor),
      ∀ op ∈ (drawTasksAux cfg i ii ts c).ops, isAddstrOp op = true := by
  intro ts
  induction ts with
  | nil => intro ii c op hop; simp [drawTasksAux] at hop
  | cons t rest ih =>
    intro ii c op hop
    simp only [drawTasksAux, StepOut.andThen_ops, List.mem_append] at hop
    rcases hop with hop | hop
    · exact addstr_taskStep cfg i ii t rest.head? c op hop
    · exact ih (ii + 1) _ op hop

theorem addstr_bucketStep (cfg : Cfg) (i : Nat) (c : Cursor) :
    ∀ op ∈ (bucketStep cfg i c).ops, isAddstrOp op = true := by
  intro op hop
  cases he : (bucket cfg i).isEmpty with
  | true =>
    cases hp : (c.pastFirst || !cfg.hideEmpty) with
    | true =>
      simp only [bucketStep, he, hp] at hop
      exact addstr_fillerStep cfg i c op (by simpa using hop)
    | false => simp [bucketStep, he, hp] at hop
  | false =>
    simp only [bucketStep, he] at hop
    exact addstr_drawTasksAux cfg i (bucket cfg i) 0 c op (by simpa using hop)

theorem addstr_drawHours (cfg : Cfg) :
    ∀ (hs : List Nat) (c : Cursor), ∀ op ∈ (drawHours cfg hs c).ops, isAddstrOp op = true := by
  intro hs
  induction hs with
  | nil => intro c op hop; simp [drawHours] at hop
  | cons i rest ih =>
    intro c op hop
    simp only [drawHours, StepOut.andThen_ops, List.mem_append] at hop
    rcases hop with hop | hop
    · exact addstr_bucketStep cfg i c op hop
    · exact ih _ op hop

theorem drawHours_append (cfg : Cfg) :
    ∀ (l1 l2 : List Nat) (c : Cursor),
      drawHours cfg (l1 ++ l2) c = (drawHours cfg l1 c).andThen (drawHours cfg l2) := by
  intro l1
  induction l1 with
  | nil => intro l2 c; rfl
  | cons i rest ih =>
    intro l2 c
    show (bucketStep cfg i c).andThen (drawHours cfg (rest ++ l2)) = _
    rw [drawHours, StepOut.andThen_assoc]
    congr 1
    funext c'
    exact ih l2 c'

theorem fillerCount_drawTasksAux (cfg : Cfg) (i : Nat) (ts : List ScheduledTask)
    (ii : Nat) (c : Cursor) (j : Nat) :
    fillerCount (drawTasksAux cfg i ii ts c).rows j = 0 := by
  unfold fillerCount
  rw [List.countP_eq_zero]
  intro r hr
  have h2 := (hour_rows_drawTasksAux cfg i ts ii c r hr).2
  simp [h2]

theorem fillerCount_bucketStep_empty (cfg : Cfg) (i : Nat) (c : Cursor)
    (he : (bucket cfg i).isEmpty = true) :
    fillerCount (bucketStep cfg i c).rows i =
      (if c.pastFirst || !cfg.hideEmpty then 1 else 0) := by
  cases hp : (c.pastFirst || !cfg.hideEmpty) with
  | true => simp [bucketStep, he, hp, fillerStep, fillerCount]
  | false => simp [bucketStep, he, hp, fillerCount]

theorem fillerCount_drawHours_not_mem (cfg : Cfg) (hs : List Nat) (c : Cursor)
    (i : Nat) (hmem : i ∉ hs) :
    fillerCount (drawHours cfg hs c).rows i = 0 := by
  unfold fillerCount
  rw [List.countP_eq_zero]
  intro r hr
  have h2 := hour_rows_drawHours cfg hs c r hr
  have : r.hour ≠ i := fun h => hmem (h ▸ h2)
  simp [this]

theorem drawHours_all_empty (cfg : Cfg) :
    ∀ (hs : List Nat) (c : Cursor),
      (∀ j ∈ hs, bucket cfg j = []) → cfg.hideEmpty = true → c.pastFirst = false →
        drawHours cfg hs c = ⟨c, [], []⟩ := by
  intro hs
  induction hs with
  | nil => intro c _ _ _; rfl
  | cons i rest ih =>
    intro c hb hhide hpf
    have hbi : (bucket cfg i).isEmpty = true := by
      simp [hb i (List.mem_cons_self i rest)]
    have hstep : bucketStep cfg i c = ⟨c, [], []⟩ := by
      simp [bucketStep, hbi, hpf, hhide]
    rw [drawHours, hstep, StepOut.skip_andThen]
    exact ih c (fun j hj => hb j (List.mem_cons_of_mem i hj)) hhide hpf

theorem fillerCount_append (a b : List RowInfo) (i : Nat) :
    fillerCount (a ++ b) i = fillerCount a i + fillerCount b i :=
  List.countP_append _ _ _

theorem range24_split (i : Nat) (hi : i < 24) :
    List.range 24 = List.range' 0 i ++ i :: List.range' (i + 1) (23 - i) := by
  rw [List.range_eq_range']
  have h1 := List.range'_append_1 0 i (24 - i)
  have h3 : 24 - i + i = 24 := by omega
  rw [Nat.zero_add, h3] at h1
  have h2 : 24 - i = (23 - i) + 1 := by omega
  rw [← h1, h2, List.range'_succ]

theorem fillerCount_key (cfg : Cfg) (i : Nat) (hi : i < 24)
    (hb : bucket cfg i = []) :
    fillerCount (schedRows cfg) i =
      (if ((List.range' 0 i).any fun j => !(bucket cfg j).isEmpty) || !cfg.hideEmpty
       then 1 else 0) := by
  unfold schedRows drawSchedule
  rw [range24_split i hi, drawHours_append]
  simp only [drawHours, StepOut.andThen_rows, fillerCount_append]
  have he : (bucket cfg i).isEmpty = true := by simp [hb]
  rw [fillerCount_drawHours_not_mem cfg _ _ i (by simp [List.mem_range']),
      fillerCount_drawHours_not_mem cfg _ _ i (by simp [List.mem_range']; omega),
      fillerCount_bucketStep_empty cfg i _ he,
      pastFirst_drawHours]
  simp

/-- Claim C3: for every tick and every hour 0..23, an empty bucket produces
exactly one filler row iff hide_empty is false or some earlier bucket of
the tick already produced task rows; and an entirely empty schedule with
hide_empty set draws zero rows below the header. -/
theorem empty_bucket_filler_row (cfg : Cfg) (i : Nat) (hi : i < 24)
    (hb : bucket cfg i = []) :
    ((cfg.hideEmpty = false ∨ ∃ j, j < i ∧ bucket cfg j ≠ []) →
        fillerCount (schedRows cfg) i = 1) ∧
    ((cfg.hideEmpty = true ∧ ∀ j, j < i → bucket cfg j = []) →
        fillerCount (schedRows cfg) i = 0) ∧
    ((∀ j, bucket cfg j = []) → cfg.hideEmpty = true → schedRows cfg = []) := by
  have hkey := fillerCount_key cfg i hi hb
  refine ⟨?_, ?_, ?_⟩
  · intro h
    rw [hkey]
    rcases h with h | ⟨j, hj, hne⟩
    · simp [h]
    · have hje : (bucket cfg j).isEmpty = false := by
        cases hb2 : bucket cfg j with
        | nil => exact absurd hb2 hne
        | cons x xs => rfl
      have hany : ((List.range' 0 i).any fun j => !(bucket cfg j).isEmpty) = true := by
        rw [List.any_eq_true]
        refine ⟨j, ?_, by simp [hje]⟩
        simp [List.mem_range']
        omega
      simp [hany]
  · rintro ⟨hh, hall⟩
    rw [hkey]
    have hany : ((List.range' 0 i).any fun j => !(bucket cfg j).isEmpty) = false := by
      rw [List.any_eq_false]
      intro j hjmem
      have hj : j < i := by
        simp [List.mem_range'] at hjmem
        omega
      simp [hall j hj]
    simp [hany, hh]
  · intro hall hhide
    unfold schedRows drawSchedule
    rw [drawHours_all_empty cfg (List.range 24) _ (fun j _ => hall j) hhide rfl]

/-- Claim C1: the task-row color of the code equals the spec's first-match-wins
precedence (active, then should-be-active, then overdue-and-not-completed,
then normal/completed crossed with alternation), rendered through the fixed
state-to-color-pair table; in particular an active and overdue task is
classified ACTIVE, never OVERDUE. -/
theorem rowColor_refines_specClassify :
    ∀ a c o comp alt : Bool,
      rowColor a c o comp alt = stateColor (specClassify a c o comp alt) ∧
      (a = true → specClassify a c o comp alt = VisualState.ACTIVE) := by
  decide

theorem rowColor_refines_specClassify_witness :
    specClassify true false true false true = VisualState.ACTIVE ∧
    rowColor true false true false true = stateColor (specClassify true false true false true) :=
  ⟨(rowColor_refines_specClassify true false true false true).2 rfl,
   (rowColor_refines_specClassify true false true false true).1⟩

/-- Claim C2: within one loop iteration, a full-screen clear is issued exactly
once when the freshly loaded snapshot differs from the previous tick's,
and not at all when the two snapshots are equal. -/
theorem tick_clear_iff_snapshot_changed (cfg : Cfg) (r : Int)
    (prev : List (List ScheduledTask)) :
    (tick cfg r prev).1.countP isClearOp = if cfg.asDict = prev then 0 else 1 := by
  unfold tick
  simp only [List.countP_append]
  have hsched : (drawSchedule cfg).ops.countP isClearOp = 0 := by
    rw [List.countP_eq_zero]
    intro op hop
    have h2 := addstr_drawHours cfg (List.range 24) ⟨1, true, false, 0⟩ op hop
    cases op <;> simp_all [isAddstrOp, isClearOp]
  have hhead : (headerOps cfg.offsets cfg.hideProjects).countP isClearOp = 0 := by
    cases hpr : cfg.hideProjects <;> simp [headerOps, isClearOp]
  rw [hsched, hhead]
  by_cases h : cfg.asDict = prev <;> simp [h, isClearOp]

/-- Claim C4 evaluation: the header row as the code draws it.  With the
hide-project flag set the code still draws the Project header and omits
the Description header; with the flag clear all four headers appear. -/
theorem header_row_contents :
    (headerOps (fun k => 6 * k) true).map opText = ["ID", "Time", "Project"] ∧
    "Description" ∉ (headerOps (fun k => 6 * k) true).map opText ∧
    (headerOps (fun k => 6 * k) false).map opText = ["ID", "Time", "Project", "Description"] := by
  refine ⟨rfl, by decide, rfl⟩

/-- Claim C5 counterexample: the command surface accepts a non-positive
refresh value — argparse's type=int applies no positivity check, so the
command line "--refresh 0" parses to 0, which is not positive. -/
theorem refresh_accepts_nonpositive :
    refreshOf (some 0) = 0 ∧ ¬(0 < refreshOf (some 0)) := by
  exact ⟨rfl, by decide⟩

/-- Claim C5 as amended: the parsed refresh value is an integer, 1 when the flag
is absent, and every tick performs exactly one sleep, of exactly that many
seconds; positivity is not enforced. -/
theorem refresh_default_and_sleep (o : Option Int) (cfg : Cfg)
    (prev : List (List ScheduledTask)) :
    refreshOf none = 1 ∧
    (tick cfg (refreshOf o) prev).1.countP isSleepOp = 1 ∧
    DrawOp.sleep (refreshOf o) ∈ (tick cfg (refreshOf o) prev).1 := by
  refine ⟨rfl, ?_, ?_⟩
  · unfold tick
    simp only [List.countP_append]
    have hsched : (drawSchedule cfg).ops.countP isSleepOp = 0 := by
      rw [List.countP_eq_zero]
      intro op hop
      have h2 := addstr_drawHours cfg (List.range 24) ⟨1, true, false, 0⟩ op hop
      cases op <;> simp_all [isAddstrOp, isSleepOp]
    have hhead : (headerOps cfg.offsets cfg.hideProjects).countP isSleepOp = 0 := by
      cases hpr : cfg.hideProjects <;> simp [headerOps, isSleepOp]
    rw [hsched, hhead]
    by_cases h : cfg.asDict = prev <;> simp [h, isSleepOp]
  · unfold tick
    simp

/-- Claim C9: a task with no successor in its bucket is never classified CURRENT:
the should-be-active probe yields false when there is no next task, and no
branch of the color precedence can then produce the CURRENT color pair 10
(or the CURRENT state). -/
theorem last_task_never_current (sba : ScheduledTask → ScheduledTask → Bool)
    (t : ScheduledTask) (alt : Bool) :
    isCurrentOf sba t none = false ∧
    specClassify t.active (isCurrentOf sba t none) t.overdue t.completed alt ≠
      VisualState.CURRENT ∧
    rowColor t.active (isCurrentOf sba t none) t.overdue t.completed alt ≠ 10 := by
  have haux : ∀ a o cm al : Bool,
      specClassify a false o cm al ≠ VisualState.CURRENT ∧ rowColor a false o cm al ≠ 10 := by
    decide
  exact ⟨rfl, (haux t.active t.overdue t.completed alt).1,
    (haux t.active t.overdue t.completed alt).2⟩

/-- Claim C6: the alternation flag recorded on the k-th emitted row of a tick is
the initial flag (True) flipped once per previously emitted row — its
parity depends only on the row index, never on how rows are distributed
over hours. -/
theorem alternation_parity (cfg : Cfg) (k : Nat) (r : RowInfo)
    (h : (schedRows cfg)[k]? = some r) :
    r.alternate = decide (k % 2 = 0) := by
  rw [List.getElem?_eq_some_iff] at h
  obtain ⟨hk, hr⟩ := h
  obtain ⟨-, -, -, h4⟩ := chained_drawSchedule cfg
  have hk2 : k < (drawSchedule cfg).rows.length := hk
  obtain ⟨-, hal, -⟩ := h4 k hk2
  have hr2 : (drawSchedule cfg).rows[k] = r := hr
  rw [hr2] at hal
  rw [hal]
  by_cases hp : k % 2 = 0 <;> simp [hp]

/-- Claim C7: the k-th emitted row of a tick uses the k-th fresh wall-clock read
(one read per row, so the reading may change between rows of one tick);
whenever its hour label is drawn, the label gets the highlight pair 5
exactly when the row's hour equals that fresh reading, and pair 2
otherwise; rows without a label draw no hour write. -/
theorem hour_highlight_fresh_clock (cfg : Cfg) (k : Nat) (r : RowInfo)
    (h : (schedRows cfg)[k]? = some r) :
    r.clockReading = cfg.clock k ∧
    (r.hourLabel ≠ "" → r.hourColor = some (if r.hour = cfg.clock k then 5 else 2)) ∧
    (r.hourLabel = "" → r.hourColor = none) := by
  rw [List.getElem?_eq_some_iff] at h
  obtain ⟨hk, hr⟩ := h
  obtain ⟨-, -, -, h4⟩ := chained_drawSchedule cfg
  have hk2 : k < (drawSchedule cfg).rows.length := hk
  obtain ⟨hclk, -, -⟩ := h4 k hk2
  have hr2 : (drawSchedule cfg).rows[k] = r := hr
  rw [hr2] at hclk
  have hmem : r ∈ schedRows cfg := by
    rw [← hr]
    exact List.getElem_mem hk
  obtain ⟨hw1, hw2, -, -⟩ := rowWf_schedRows cfg r hmem
  have hclk2 : r.clockReading = cfg.clock k := by
    rw [hclk]
    simp
  refine ⟨hclk2, ?_, hw2⟩
  intro hne
  rw [hw1 hne, hclk2]

/-- Claim C8: the time cell of a task row is the bare start time when the task
has no end, and the "start-end" range (end formatted HH:MM, joined by a
hyphen) when it does; the cell is written at offsets[2] with the row's
classified color. -/
theorem time_cell_format (cfg : Cfg) (i ii : Nat) (t : ScheduledTask)
    (next? : Option ScheduledTask) (c : Cursor) :
    (t.endHM = none → formattedTime t = t.start_time) ∧
    (∀ e, t.endHM = some e →
        formattedTime t = t.start_time ++ "-" ++ strftimeHM e.1 e.2) ∧
    DrawOp.addstr c.line (cfg.offsets 2) (formattedTime t)
        (rowColor t.active (isCurrentOf cfg.sba t next?) t.overdue t.completed c.alternate)
        false ∈ (taskStep cfg i ii t next? c).ops := by
  refine ⟨?_, ?_, ?_⟩
  · intro h
    simp [formattedTime, h]
  · intro e h
    simp [formattedTime, h]
  · simp [taskStep]

/-- Claim C10: within a bucket, a task row carries the hour label `str(i)` only
at index 0; every later task row has the empty label and performs no
column-0 hour write (the real column offsets are positive, so only the
hour label ever sits at column 0). -/
theorem hour_label_first_task_only (cfg : Cfg) (i ii : Nat) (t : ScheduledTask)
    (next? : Option ScheduledTask) (c : Cursor)
    (h2 : 0 < cfg.offsets 2) (h3 : 0 < cfg.offsets 3) (h4 : 0 < cfg.offsets 4) :
    (taskStep cfg i ii t next? c).rows.map (fun r => r.hourLabel) =
      [if ii = 0 then toString i else ""] ∧
    (taskStep cfg i ii t next? c).ops.countP isHourWrite =
      (if ii = 0 then 1 else 0) := by
  constructor
  · simp [taskStep]
  · by_cases hii : ii = 0
    · simp [taskStep, hii, toString_nat_ne_empty i, isHourWrite, List.countP_cons]
      split_ifs <;> simp_all [isHourWrite] <;> omega
    · simp [taskStep, hii, isHourWrite, List.countP_cons]
      split_ifs <;> simp_all [isHourWrite] <;> omega

/-!
Concrete inputs used by the witnesses.
-/

/-- The spec's scenario task: id 5, "Write report", project "Docs",
start 09:00, no end, not completed, not active. -/
def task9 : ScheduledTask :=
  ⟨5, "Write report", some "Docs", "09:00", none, false, false, false, "*"⟩

/-- A tick with an empty provider result and hide_empty disabled (shows all
24 hours as filler rows); the wall clock reads k on the k-th read. -/
def cfgW : Cfg :=
  ⟨fun _ _ => false, fun k => k, 10, false, false, fun k => 6 * k, []⟩

/-- A tick whose bucket 0 holds the scenario task and whose other buckets
are empty, with hide_empty enabled. -/
def cfgT : Cfg :=
  ⟨fun _ _ => false, fun k => k, 10, true, false, fun k => 6 * k, [[task9]]⟩

/-- The initial drawing cursor of a tick. -/
def cursor0 : Cursor := ⟨1, true, false, 0⟩

/-- The first row cfgW emits: the filler row of hour 0. -/
def rW : RowInfo :=
  ⟨0, 0, true, "0", 0, some 5, 1, true, 1⟩

theorem empty_bucket_filler_row_witness :
    bucket cfgT 1 = [] ∧ fillerCount (schedRows cfgT) 1 = 1 :=
  ⟨by decide,
   (empty_bucket_filler_row cfgT 1 (by decide) (by decide)).1
     (Or.inr ⟨0, by decide, by decide⟩)⟩

theorem alternation_parity_witness : rW.alternate = true :=
  alternation_parity cfgW 0 rW (by decide)

theorem hour_highlight_fresh_clock_witness :
    rW.clockReading = cfgW.clock 0 ∧ rW.hourColor = some 5 :=
  ⟨(hour_highlight_fresh_clock cfgW 0 rW (by decide)).1,
   (hour_highlight_fresh_clock cfgW 0 rW (by decide)).2.1 (by decide)⟩

theorem time_cell_format_witness : formattedTime task9 = "09:00" :=
  (time_cell_format cfgW 9 0 task9 none cursor0).1 rfl

theorem hour_label_first_task_only_witness :
    0 < cfgW.offsets 2 ∧
    (taskStep cfgW 14 1 task9 none cursor0).ops.countP isHourWrite = 0 :=
  ⟨by decide,
   (hour_label_first_task_only cfgW 14 1 task9 none cursor0
      (by decide) (by decide) (by decide)).2⟩
